import Mathlib

/-!
Shallow embedding of objfile/scanner.go (module-data signature scanner).

Bytes and Go unsigned integers are modelled as Nat, with wraparound made
explicit by reductions modulo 2 to the relevant power; Go signed integers
are modelled as Int. The inner while loop of findPattern is rendered as a
structurally recursive loop whose fuel counts the remaining iterations of
the loop bound sigIdx < patternSize.
-/

set_option maxRecDepth 100000

/-- Resolved output value, Go struct SignatureMatch (field moduleDataVA uint64). -/
structure SignatureMatch where
  moduleDataVA : Nat
deriving DecidableEq

/-- Go struct signatureModuleDataInitx64. -/
structure signatureModuleDataInitx64 where
  moduleDataPtrLoc : Nat
  moduleDataPtrOffsetLoc : Nat
  signature : List Nat

/-- Go struct signatureModuleDataInitx86. -/
structure signatureModuleDataInitx86 where
  moduleDataPtrLoc : Nat
  moduleDataSignature : List Nat
  loopMaxDistanceFromModuleData : Nat
  loopSignature : List Nat

/-- Go struct signatureModuleDataInitPPC. -/
structure signatureModuleDataInitPPC where
  moduleDataPtrHi : Nat
  moduleDataPtrLo : Nat
  signature : List Nat

/-- ASCII codes of a Go string literal, as used for the signature byte slices. -/
def strBytes (s : String) : List Nat := s.data.map Char.toNat

/-- Go var x64sig. -/
def x64sig : signatureModuleDataInitx64 :=
  ⟨3, 7, strBytes ("48 8D 0? ?? ?? ?? ?? EB ?? 48 8? 8? ?? 02 00 00 66 0F 1F 44 00 00")⟩

/-- Go var x86sig. -/
def x86sig : signatureModuleDataInitx86 :=
  ⟨2, strBytes ("8D ?? ?? ?? ?? ?? EB 1A"), 50, strBytes ("8B ?? ?? ?? ?? ?? 8B ?? 24 20 85 ?? 75 E2")⟩

/-- Go var PPC_BE_sig. -/
def PPC_BE_sig : signatureModuleDataInitPPC :=
  ⟨2, 6, strBytes ("3? 80 00 2C 3? ?? 80 00 48 ?? ?? 08 E? ?? 02 30 7C ?? 00 00 41 82 ?? ??")⟩

/-- Go func getPatternSize: (len(signature) + 1) / 3. -/
def getPatternSize (signature : List Nat) : Nat :=
  (signature.length + 1) / 3

/-- Go func getBits on a byte: hex digit decoding with uint8 wraparound in the
else branch, where (x AND 0xDF) - 65 + 10 is computed modulo 256. -/
def getBits (x : Nat) : Nat :=
  if 48 ≤ x ∧ x ≤ 57 then x - 48
  else (x.land 223 + 201) % 256

/-- One iteration body of the inner loop of Go findPattern: the comparison of
data byte i + sigIdx against pattern byte sigIdx (text positions sigIdx * 3 and
sigIdx * 3 + 1), with 63 the code of the wildcard character. -/
def sigByteMatches (data signature : List Nat) (i sigIdx : Nat) : Bool :=
  data.getD (i + sigIdx) 0 ==
    (if signature.getD (sigIdx * 3) 0 = 63 then (data.getD (i + sigIdx) 0).land 240
     else (getBits (signature.getD (sigIdx * 3) 0) <<< 4) % 256).lor
      (if signature.getD (sigIdx * 3 + 1) 0 = 63 then (data.getD (i + sigIdx) 0).land 15
       else getBits (signature.getD (sigIdx * 3 + 1) 0))

/-- The inner while loop of Go findPattern, returning the final value of
sigIdx. The fuel argument counts the iterations still allowed by the loop
condition sigIdx < patternSize; the other loop condition i + sigIdx < len(data)
and the body are checked as in the source. -/
def matchLoop (data signature : List Nat) (i : Nat) : Nat → Nat → Nat
  | sigIdx, 0 => sigIdx
  | sigIdx, fuel + 1 =>
    if i + sigIdx < data.length then
      if sigByteMatches data signature i sigIdx then
        matchLoop data signature i (sigIdx + 1) fuel
      else sigIdx
    else sigIdx

/-- The per-offset test of Go findPattern: the final sigIdx is at least
patternSize. -/
def isMatchAt (data signature : List Nat) (i : Nat) : Bool :=
  decide (getPatternSize signature ≤
    matchLoop data signature i 0 (getPatternSize signature))

/-- Go func findPattern: scan every start offset of data in ascending order
and concatenate the callback results at the matching offsets. -/
def findPattern (data signature : List Nat) (callback : Nat → List SignatureMatch) :
    List SignatureMatch :=
  (List.range data.length).flatMap fun i =>
    if isMatchAt data signature i then callback i else []

/-- binary.LittleEndian.Uint32 of data[off:][:4]. -/
def leUint32 (data : List Nat) (off : Nat) : Nat :=
  data.getD off 0 + data.getD (off + 1) 0 * 256 + data.getD (off + 2) 0 * 65536 +
    data.getD (off + 3) 0 * 16777216

/-- binary.BigEndian.Uint16 of data[off:][:2]. -/
def beUint16 (data : List Nat) (off : Nat) : Nat :=
  data.getD off 0 * 256 + data.getD (off + 1) 0

/-- Go conversion int16(x) of a uint16 value: two-complement reinterpretation. -/
def int16ofUint16 (x : Nat) : Int :=
  if x < 32768 then (x : Int) else (x : Int) - 65536

/-- Go conversion uint64(v) of an int64 value: reduction modulo 2 power 64. -/
def uint64ofInt (v : Int) : Nat :=
  (v % 18446744073709551616).toNat

/-- Go func findModuleInitPCHeader: the three architecture scans appended, in
source order, onto an initially empty match list. The x64 callback resolves
moduleDataPtrOffset + moduleDataIpOffset + sectionBase in uint64 arithmetic;
the x86 callback rescans the tail of data from the first match for the loop
signature and emits the raw absolute pointer when the second match is closer
than loopMaxDistanceFromModuleData; the PPC callback reassembles the split
immediate as int64((hi shifted left 16) + sign-extended lo), reinterpreted as
uint64. On int64, hi shifted left by 16 equals hi * 65536 exactly, since hi is
a uint16 value. -/
def findModuleInitPCHeader (data : List Nat) (sectionBase : Nat) : List SignatureMatch :=
  let matchList : List SignatureMatch := []
  let matchList := matchList ++ findPattern data x64sig.signature (fun sigPtr =>
    let moduleDataPtrOffset := leUint32 data (sigPtr + x64sig.moduleDataPtrLoc)
    let moduleDataIpOffset := sigPtr + x64sig.moduleDataPtrOffsetLoc
    [⟨(moduleDataPtrOffset + moduleDataIpOffset + sectionBase) % 18446744073709551616⟩])
  let matchList := matchList ++ findPattern data x86sig.moduleDataSignature (fun sigPtr =>
    findPattern (data.drop sigPtr) x86sig.loopSignature (fun sigPtr2 =>
      if sigPtr2 < x86sig.loopMaxDistanceFromModuleData then
        [⟨leUint32 data (sigPtr + x86sig.moduleDataPtrLoc)⟩]
      else []))
  let matchList := matchList ++ findPattern data PPC_BE_sig.signature (fun sigPtr =>
    let moduleDataPtrHi : Int := beUint16 data (sigPtr + PPC_BE_sig.moduleDataPtrHi)
    let moduleDataPtrLo : Int := int16ofUint16 (beUint16 data (sigPtr + PPC_BE_sig.moduleDataPtrLo))
    let moduleDataIpOffset : Nat := uint64ofInt (moduleDataPtrHi * 65536 + moduleDataPtrLo)
    [⟨moduleDataIpOffset⟩])
  matchList

/-- The x64 portion of findModuleInitPCHeader, named for the statements below. -/
def x64Scan (data : List Nat) (sectionBase : Nat) : List SignatureMatch :=
  findPattern data x64sig.signature (fun sigPtr =>
    let moduleDataPtrOffset := leUint32 data (sigPtr + x64sig.moduleDataPtrLoc)
    let moduleDataIpOffset := sigPtr + x64sig.moduleDataPtrOffsetLoc
    [⟨(moduleDataPtrOffset + moduleDataIpOffset + sectionBase) % 18446744073709551616⟩])

/-- The x86 portion of findModuleInitPCHeader, named for the statements below.
The sectionBase argument is in scope in the source closure but unused there. -/
def x86Scan (data : List Nat) (sectionBase : Nat) : List SignatureMatch :=
  findPattern data x86sig.moduleDataSignature (fun sigPtr =>
    findPattern (data.drop sigPtr) x86sig.loopSignature (fun sigPtr2 =>
      if sigPtr2 < x86sig.loopMaxDistanceFromModuleData then
        [⟨leUint32 data (sigPtr + x86sig.moduleDataPtrLoc)⟩]
      else []))

/-- The PPC portion of findModuleInitPCHeader, named for the statements below.
The sectionBase argument is in scope in the source closure but unused there. -/
def ppcScan (data : List Nat) (sectionBase : Nat) : List SignatureMatch :=
  findPattern data PPC_BE_sig.signature (fun sigPtr =>
    let moduleDataPtrHi : Int := beUint16 data (sigPtr + PPC_BE_sig.moduleDataPtrHi)
    let moduleDataPtrLo : Int := int16ofUint16 (beUint16 data (sigPtr + PPC_BE_sig.moduleDataPtrLo))
    let moduleDataIpOffset : Nat := uint64ofInt (moduleDataPtrHi * 65536 + moduleDataPtrLo)
    [⟨moduleDataIpOffset⟩])

/-- The list of offsets at which the pattern matches, in ascending order. -/
def matchOffsets (data signature : List Nat) : List Nat :=
  (List.range data.length).filter (fun i => isMatchAt data signature i)

/-- The inner loop runs to completion, in the sense that the final sigIdx
reaches sigIdx + fuel, exactly when every remaining position passes both the
bounds guard and the byte comparison. -/
theorem matchLoop_complete (data sig : List Nat) (i : Nat) :
    ∀ fuel s, s + fuel ≤ matchLoop data sig i s fuel ↔
      ∀ k, s ≤ k → k < s + fuel → i + k < data.length ∧ sigByteMatches data sig i k = true := by
  intro fuel
  induction fuel with
  | zero =>
    intro s
    simp only [matchLoop, Nat.add_zero]
    constructor
    · intro _ k hk1 hk2
      omega
    · intro _
      exact Nat.le_refl s
  | succ f ih =>
    intro s
    simp only [matchLoop]
    by_cases hd : i + s < data.length
    · rw [if_pos hd]
      by_cases hm : sigByteMatches data sig i s = true
      · rw [if_pos hm]
        have hstep := ih (s + 1)
        constructor
        · intro h k hk1 hk2
          rcases Nat.eq_or_lt_of_le hk1 with heq | hlt
          · exact heq ▸ ⟨hd, hm⟩
          · exact (hstep.mp (by omega)) k (by omega) (by omega)
        · intro h
          have h2 := hstep.mpr (fun k hk1 hk2 => h k (by omega) (by omega))
          omega
      · rw [if_neg hm]
        constructor
        · intro h
          omega
        · intro h
          exact absurd (h s (Nat.le_refl s) (by omega)).2 hm
    · rw [if_neg hd]
      constructor
      · intro h
        omega
      · intro h
        exact absurd (h s (Nat.le_refl s) (by omega)).1 hd

/-- A start offset matches exactly when every pattern byte position is both in
bounds and passes the nibble comparison. -/
theorem isMatchAt_iff (data sig : List Nat) (i : Nat) :
    isMatchAt data sig i = true ↔
      ∀ k < getPatternSize sig, i + k < data.length ∧ sigByteMatches data sig i k = true := by
  unfold isMatchAt
  rw [decide_eq_true_iff]
  have h := matchLoop_complete data sig i (getPatternSize sig) 0
  simpa using h

/-- Concatenating over guarded callbacks is the same as concatenating the
callback over the filtered list. -/
theorem flatMap_guard_eq_filter {α : Type} (l : List Nat) (p : Nat → Bool) (cb : Nat → List α) :
    (l.flatMap fun i => if p i then cb i else []) = (l.filter p).flatMap cb := by
  induction l with
  | nil => simp
  | cons a t ih =>
    by_cases h : p a = true
    · simp [List.filter_cons, h, ih]
    · simp [List.filter_cons, h, ih]

/-- findPattern is the concatenation of the callback over the ascending list of
matching offsets. -/
theorem findPattern_eq (data sig : List Nat) (cb : Nat → List SignatureMatch) :
    findPattern data sig cb = (matchOffsets data sig).flatMap cb := by
  unfold findPattern matchOffsets
  exact flatMap_guard_eq_filter _ _ _

/-- Membership in the match offset list. -/
theorem mem_matchOffsets (data sig : List Nat) (i : Nat) :
    i ∈ matchOffsets data sig ↔ i < data.length ∧ isMatchAt data sig i = true := by
  simp [matchOffsets, List.mem_filter, List.mem_range]

/-- Match offsets are strictly ascending. -/
theorem matchOffsets_ascending (data sig : List Nat) :
    (matchOffsets data sig).Pairwise (· < ·) :=
  (List.pairwise_lt_range _).filter _

/-- Every match offset leaves room for the whole pattern inside the buffer. -/
theorem matchOffsets_bound (data sig : List Nat) :
    ∀ i ∈ matchOffsets data sig, i + getPatternSize sig ≤ data.length := by
  intro i hi
  rw [mem_matchOffsets] at hi
  have h := (isMatchAt_iff data sig i).mp hi.2
  rcases Nat.eq_zero_or_pos (getPatternSize sig) with h0 | hp
  · omega
  · have := (h (getPatternSize sig - 1) (by omega)).1
    omega

/-- getPatternSize of a well-formed pattern text of b bytes is b. -/
theorem getPatternSize_of_wf (sig : List Nat) (b : Nat) (hsig : sig.length + 1 = 3 * b) :
    getPatternSize sig = b := by
  unfold getPatternSize
  omega

/-- The byte comparison with every list access performed through an in-bounds
proof: the buffer is read only at index i + sigIdx, and the pattern text only
at indices sigIdx * 3 and sigIdx * 3 + 1. -/
def sigByteMatchesChecked (data sig : List Nat) (i sigIdx : Nat)
    (hd : i + sigIdx < data.length)
    (h0 : sigIdx * 3 < sig.length)
    (h1 : sigIdx * 3 + 1 < sig.length) : Bool :=
  data.get ⟨i + sigIdx, hd⟩ ==
    (if sig.get ⟨sigIdx * 3, h0⟩ = 63 then (data.get ⟨i + sigIdx, hd⟩).land 240
     else (getBits (sig.get ⟨sigIdx * 3, h0⟩) <<< 4) % 256).lor
      (if sig.get ⟨sigIdx * 3 + 1, h1⟩ = 63 then (data.get ⟨i + sigIdx, hd⟩).land 15
       else getBits (sig.get ⟨sigIdx * 3 + 1, h1⟩))

/-- On in-bounds indices the checked comparison agrees with the total one. -/
theorem sigByteMatchesChecked_eq (data sig : List Nat) (i sigIdx : Nat)
    (hd : i + sigIdx < data.length)
    (h0 : sigIdx * 3 < sig.length)
    (h1 : sigIdx * 3 + 1 < sig.length) :
    sigByteMatchesChecked data sig i sigIdx hd h0 h1 = sigByteMatches data sig i sigIdx := by
  unfold sigByteMatchesChecked sigByteMatches
  rw [List.getD_eq_getElem data 0 hd, List.getD_eq_getElem sig 0 h0, List.getD_eq_getElem sig 0 h1]
  rfl

/-- The inner loop with every access checked. For a well-formed pattern of b
bytes, fuel tracks the loop bound through the invariant sigIdx + fuel = b, so
every buffer access is guarded by the loop condition and every pattern text
access lies inside the text. -/
def matchLoopChecked (data sig : List Nat) (i b : Nat) (hsig : sig.length + 1 = 3 * b) :
    (sigIdx : Nat) → (fuel : Nat) → sigIdx + fuel = b → Nat
  | sigIdx, 0, _ => sigIdx
  | sigIdx, fuel + 1, hinv =>
    if hd : i + sigIdx < data.length then
      if sigByteMatchesChecked data sig i sigIdx hd (by omega) (by omega) then
        matchLoopChecked data sig i b hsig (sigIdx + 1) fuel (by omega)
      else sigIdx
    else sigIdx

/-- The scanner loop coincides with its fully bounds-checked version: no read
it performs is out of bounds. -/
theorem matchLoop_eq_checked (data sig : List Nat) (i b : Nat) (hsig : sig.length + 1 = 3 * b) :
    ∀ fuel sigIdx (hinv : sigIdx + fuel = b),
      matchLoop data sig i sigIdx fuel = matchLoopChecked data sig i b hsig sigIdx fuel hinv := by
  intro fuel
  induction fuel with
  | zero =>
    intro sigIdx hinv
    simp [matchLoop, matchLoopChecked]
  | succ f ih =>
    intro sigIdx hinv
    simp only [matchLoop, matchLoopChecked]
    by_cases hd : i + sigIdx < data.length
    · rw [if_pos hd, dif_pos hd, sigByteMatchesChecked_eq]
      by_cases hm : sigByteMatches data sig i sigIdx = true
      · rw [if_pos hm, if_pos hm]
        exact ih (sigIdx + 1) (by omega)
      · rw [if_neg hm, if_neg hm]
    · rw [if_neg hd, dif_neg hd]

/-- The characters the documented pattern format allows for a non-wildcard
nibble: the ASCII hex digits, in either case. -/
def isHexDigit (c : Nat) : Bool :=
  decide ((48 ≤ c ∧ c ≤ 57) ∨ (65 ≤ c ∧ c ≤ 70) ∨ (97 ≤ c ∧ c ≤ 102))

theorem land240_fin : ∀ d : Fin 256, (d : Nat).land 240 = d / 16 * 16 := by decide

theorem land15_fin : ∀ d : Fin 256, (d : Nat).land 15 = d % 16 := by decide

theorem lor_nibbles_fin : ∀ v w : Fin 16, ((v : Nat) * 16).lor w = v * 16 + w := by decide

theorem getBits_lt_fin : ∀ c : Fin 103, isHexDigit (c : Nat) = true → getBits (c : Nat) < 16 := by
  decide

theorem land240_of_lt (d : Nat) (h : d < 256) : d.land 240 = d / 16 * 16 :=
  land240_fin ⟨d, h⟩

theorem land15_of_lt (d : Nat) (h : d < 256) : d.land 15 = d % 16 :=
  land15_fin ⟨d, h⟩

theorem lor_nibbles (v w : Nat) (hv : v < 16) (hw : w < 16) : (v * 16).lor w = v * 16 + w :=
  lor_nibbles_fin ⟨v, hv⟩ ⟨w, hw⟩

theorem getBits_lt_of_hex (c : Nat) (h : isHexDigit c = true) : getBits c < 16 := by
  have hc : c < 103 := by
    simp only [isHexDigit, decide_eq_true_iff] at h
    omega
  exact getBits_lt_fin ⟨c, hc⟩ h

theorem hex_ne_wildcard (c : Nat) (h : isHexDigit c = true) : c ≠ 63 := by
  intro hc
  rw [hc] at h
  exact absurd h (by decide)

/-- A byte of data below 256 has getD values below 256 at every index. -/
theorem getD_lt_256 (data : List Nat) (hdata : ∀ x ∈ data, x < 256) (n : Nat) :
    data.getD n 0 < 256 := by
  by_cases h : n < data.length
  · rw [List.getD_eq_getElem data 0 h]
    exact hdata _ (List.getElem_mem h)
  · rw [List.getD_eq_default data 0 (by omega)]
    omega

/-- Nibble-level reading of one byte comparison: a wildcard nibble constrains
nothing, a fixed nibble must equal the corresponding nibble of the data byte. -/
theorem sigByteMatches_iff_nibbles (data sig : List Nat) (i k : Nat)
    (hbyte : data.getD (i + k) 0 < 256)
    (hc0 : sig.getD (k * 3) 0 = 63 ∨ isHexDigit (sig.getD (k * 3) 0) = true)
    (hc1 : sig.getD (k * 3 + 1) 0 = 63 ∨ isHexDigit (sig.getD (k * 3 + 1) 0) = true) :
    sigByteMatches data sig i k = true ↔
      (sig.getD (k * 3) 0 = 63 ∨ getBits (sig.getD (k * 3) 0) = data.getD (i + k) 0 / 16)
      ∧ (sig.getD (k * 3 + 1) 0 = 63 ∨ getBits (sig.getD (k * 3 + 1) 0) = data.getD (i + k) 0 % 16) := by
  unfold sigByteMatches
  rw [beq_iff_eq]
  by_cases h63 : sig.getD (k * 3) 0 = 63
  · rw [if_pos h63, land240_of_lt _ hbyte]
    by_cases h63b : sig.getD (k * 3 + 1) 0 = 63
    · rw [if_pos h63b, land15_of_lt _ hbyte]
      rw [lor_nibbles _ _ (by omega) (by omega)]
      constructor
      · intro _
        exact ⟨Or.inl h63, Or.inl h63b⟩
      · intro _
        omega
    · have hx1 := getBits_lt_of_hex _ (hc1.resolve_left h63b)
      rw [if_neg h63b, lor_nibbles _ _ (by omega) hx1]
      constructor
      · intro h
        exact ⟨Or.inl h63, Or.inr (by omega)⟩
      · intro h
        rcases h.2 with hc | hc
        · exact absurd hc h63b
        · omega
  · have hx0 := getBits_lt_of_hex _ (hc0.resolve_left h63)
    rw [if_neg h63, Nat.shiftLeft_eq, show (2 : Nat) ^ 4 = 16 from rfl,
      Nat.mod_eq_of_lt (by omega)]
    by_cases h63b : sig.getD (k * 3 + 1) 0 = 63
    · rw [if_pos h63b, land15_of_lt _ hbyte, lor_nibbles _ _ hx0 (by omega)]
      constructor
      · intro h
        exact ⟨Or.inr (by omega), Or.inl h63b⟩
      · intro h
        rcases h.1 with hc | hc
        · exact absurd hc h63
        · omega
    · have hx1 := getBits_lt_of_hex _ (hc1.resolve_left h63b)
      rw [if_neg h63b, lor_nibbles _ _ hx0 hx1]
      constructor
      · intro h
        exact ⟨Or.inr (by omega), Or.inr (by omega)⟩
      · intro h
        rcases h.1 with hc | hc
        · exact absurd hc h63
        · rcases h.2 with hc2 | hc2
          · exact absurd hc2 h63b
          · omega

/-- The byte sequence denoted by a pattern with no wildcard nibbles. -/
def decodeBytes (sig : List Nat) (b : Nat) : List Nat :=
  (List.range b).map (fun k => getBits (sig.getD (k * 3) 0) * 16 + getBits (sig.getD (k * 3 + 1) 0))

/-- Equality of a b-byte window of data with a b-byte decoded sequence, read
off elementwise through getD. -/
theorem window_eq_iff (data : List Nat) (i b : Nat) (f : Nat → Nat) (hb : 1 ≤ b) :
    (data.drop i).take b = (List.range b).map f ↔
      i + b ≤ data.length ∧ ∀ k < b, data.getD (i + k) 0 = f k := by
  constructor
  · intro h
    have hlen := congrArg List.length h
    simp only [List.length_take, List.length_drop, List.length_map, List.length_range] at hlen
    have hmin : b ≤ data.length - i := by
      rw [← hlen]
      exact Nat.min_le_right _ _
    have hle : i + b ≤ data.length := by omega
    refine ⟨hle, fun k hk => ?_⟩
    have hk1 : k < ((data.drop i).take b).length := by
      simp only [List.length_take, List.length_drop]
      omega
    have hk2 : k < ((List.range b).map f).length := by
      simp only [List.length_map, List.length_range]
      omega
    have he : ((data.drop i).take b)[k] = ((List.range b).map f)[k] := by
      congr 1
    simp only [List.getElem_take, List.getElem_drop, List.getElem_map, List.getElem_range] at he
    rw [List.getD_eq_getElem data 0 (by omega)]
    exact he
  · intro h
    apply List.ext_getElem
    · simp only [List.length_take, List.length_drop, List.length_map, List.length_range]
      omega
    · intro k hk1 hk2
      simp only [List.getElem_take, List.getElem_drop, List.getElem_map, List.getElem_range]
      have hkb : k < b := by
        simpa using hk2
      have hgd := h.2 k hkb
      rw [List.getD_eq_getElem data 0 (by omega)] at hgd
      exact hgd

/-- Full-pattern nibble characterization of a match, for well-formed patterns
over byte-valued buffers. -/
theorem isMatchAt_nibbles (data sig : List Nat) (b i : Nat)
    (hsig : sig.length + 1 = 3 * b)
    (hdata : ∀ x ∈ data, x < 256)
    (hchars : ∀ k < b, (sig.getD (k * 3) 0 = 63 ∨ isHexDigit (sig.getD (k * 3) 0) = true)
      ∧ (sig.getD (k * 3 + 1) 0 = 63 ∨ isHexDigit (sig.getD (k * 3 + 1) 0) = true)) :
    isMatchAt data sig i = true ↔ i + b ≤ data.length ∧ ∀ k < b,
      (sig.getD (k * 3) 0 = 63 ∨ getBits (sig.getD (k * 3) 0) = data.getD (i + k) 0 / 16)
      ∧ (sig.getD (k * 3 + 1) 0 = 63 ∨ getBits (sig.getD (k * 3 + 1) 0) = data.getD (i + k) 0 % 16) := by
  have hb : 1 ≤ b := by omega
  rw [isMatchAt_iff, getPatternSize_of_wf sig b hsig]
  constructor
  · intro h
    have hlast := (h (b - 1) (by omega)).1
    refine ⟨by omega, fun k hk => ?_⟩
    exact (sigByteMatches_iff_nibbles data sig i k (getD_lt_256 data hdata _)
      (hchars k hk).1 (hchars k hk).2).mp (h k hk).2
  · intro h k hk
    refine ⟨by omega, ?_⟩
    exact (sigByteMatches_iff_nibbles data sig i k (getD_lt_256 data hdata _)
      (hchars k hk).1 (hchars k hk).2).mpr (h.2 k hk)

/-- C4: the scan reports matches only at offsets where the whole pattern fits
inside the buffer; an attempt in which the data runs out before the pattern is
exhausted fails; a buffer shorter than the pattern (in particular an empty one)
yields an empty match list; and the matching loop coincides with its fully
bounds-checked version, so no index into the buffer or the pattern text is
ever out of bounds. -/
theorem scanner_bounds_safety (data sig : List Nat) (b : Nat) (cb : Nat → List SignatureMatch)
    (hsig : sig.length + 1 = 3 * b) :
    (∀ i ∈ matchOffsets data sig, i + getPatternSize sig ≤ data.length)
    ∧ (∀ i, data.length < i + b → isMatchAt data sig i = false)
    ∧ (data.length < b → findPattern data sig cb = [])
    ∧ (∀ i sigIdx fuel (hinv : sigIdx + fuel = b),
        matchLoop data sig i sigIdx fuel = matchLoopChecked data sig i b hsig sigIdx fuel hinv) := by
  have hps := getPatternSize_of_wf sig b hsig
  refine ⟨matchOffsets_bound data sig, ?_, ?_, ?_⟩
  · intro i hlen
    rw [← Bool.not_eq_true]
    intro hm
    have h := (isMatchAt_iff data sig i).mp hm
    rw [hps] at h
    have hb : 1 ≤ b := by omega
    have := (h (b - 1) (by omega)).1
    omega
  · intro hlen
    rw [findPattern_eq]
    have hempty : matchOffsets data sig = [] := by
      rw [List.eq_nil_iff_forall_not_mem]
      intro i hi
      have h1 := matchOffsets_bound data sig i hi
      have h2 := (mem_matchOffsets data sig i).mp hi
      omega
    rw [hempty]
    rfl
  · intro i sigIdx fuel hinv
    exact matchLoop_eq_checked data sig i b hsig fuel sigIdx hinv

theorem scanner_bounds_safety_witness :
    isMatchAt [170] (strBytes ("AA AA")) 0 = false
    ∧ findPattern [170] (strBytes ("AA AA")) (fun k => [⟨k⟩]) = [] :=
  ⟨(scanner_bounds_safety [170] (strBytes ("AA AA")) 2 (fun k => [⟨k⟩]) (by decide)).2.1 0
      (by decide),
   (scanner_bounds_safety [170] (strBytes ("AA AA")) 2 (fun k => [⟨k⟩]) (by decide)).2.2.1
      (by decide)⟩

/-- C5: the scan attempts every start offset of the buffer in ascending order,
the result is the concatenation of the callback output over exactly the
matching offsets taken in ascending order, overlapping matches are all
reported, and the pattern AA AA over the buffer AA AA AA matches at offsets 0
and 1. -/
theorem scan_output_structure (data sig : List Nat) (cb : Nat → List SignatureMatch) :
    findPattern data sig cb =
      ((List.range data.length).filter (fun i => isMatchAt data sig i)).flatMap cb
    ∧ matchOffsets data sig = (List.range data.length).filter (fun i => isMatchAt data sig i)
    ∧ (matchOffsets data sig).Pairwise (· < ·)
    ∧ matchOffsets [170, 170, 170] (strBytes ("AA AA")) = [0, 1] :=
  ⟨findPattern_eq data sig cb, rfl, matchOffsets_ascending data sig, by decide⟩

/-- C6: matching is byte-by-byte and nibble-by-nibble, a wildcard nibble
matches any data nibble and a fixed hex nibble matches exactly the equal data
nibble; hence an all-wildcard pattern matches wherever it fits and a pattern
without wildcards matches exactly at the literal occurrences of its decoded
byte sequence. -/
theorem wildcard_matching_semantics (data sig : List Nat) (b i : Nat)
    (hsig : sig.length + 1 = 3 * b)
    (hdata : ∀ x ∈ data, x < 256)
    (hchars : ∀ k < b, (sig.getD (k * 3) 0 = 63 ∨ isHexDigit (sig.getD (k * 3) 0) = true)
      ∧ (sig.getD (k * 3 + 1) 0 = 63 ∨ isHexDigit (sig.getD (k * 3 + 1) 0) = true)) :
    (isMatchAt data sig i = true ↔ i + b ≤ data.length ∧ ∀ k < b,
      (sig.getD (k * 3) 0 = 63 ∨ getBits (sig.getD (k * 3) 0) = data.getD (i + k) 0 / 16)
      ∧ (sig.getD (k * 3 + 1) 0 = 63 ∨ getBits (sig.getD (k * 3 + 1) 0) = data.getD (i + k) 0 % 16))
    ∧ ((∀ k < b, sig.getD (k * 3) 0 = 63 ∧ sig.getD (k * 3 + 1) 0 = 63) →
        (isMatchAt data sig i = true ↔ i + b ≤ data.length))
    ∧ ((∀ k < b, isHexDigit (sig.getD (k * 3) 0) = true ∧ isHexDigit (sig.getD (k * 3 + 1) 0) = true) →
        (isMatchAt data sig i = true ↔ (data.drop i).take b = decodeBytes sig b)) := by
  have hb : 1 ≤ b := by omega
  have hmain := isMatchAt_nibbles data sig b i hsig hdata hchars
  refine ⟨hmain, ?_, ?_⟩
  · intro hwild
    rw [hmain]
    constructor
    · intro h
      exact h.1
    · intro h
      exact ⟨h, fun k hk => ⟨Or.inl (hwild k hk).1, Or.inl (hwild k hk).2⟩⟩
  · intro hhex
    rw [hmain]
    unfold decodeBytes
    rw [window_eq_iff data i b _ hb]
    constructor
    · intro h
      refine ⟨h.1, fun k hk => ?_⟩
      have hk1 := (h.2 k hk).1.resolve_left (hex_ne_wildcard _ (hhex k hk).1)
      have hk2 := (h.2 k hk).2.resolve_left (hex_ne_wildcard _ (hhex k hk).2)
      have hd256 := getD_lt_256 data hdata (i + k)
      have hg1 := getBits_lt_of_hex _ (hhex k hk).1
      have hg2 := getBits_lt_of_hex _ (hhex k hk).2
      omega
    · intro h
      refine ⟨h.1, fun k hk => ?_⟩
      have heq := h.2 k hk
      have hd256 := getD_lt_256 data hdata (i + k)
      have hg1 := getBits_lt_of_hex _ (hhex k hk).1
      have hg2 := getBits_lt_of_hex _ (hhex k hk).2
      exact ⟨Or.inr (by omega), Or.inr (by omega)⟩

theorem wildcard_matching_semantics_witness :
    isMatchAt [171] (strBytes ("A?")) 0 = true :=
  (wildcard_matching_semantics [171] (strBytes ("A?")) 1 0 (by decide) (by decide)
    (by decide)).1.mpr (by decide)

/-- The worked-example x64 buffer: lea rcx with displacement 0x0026DA8F at
offset 3, then the rest of the instruction idiom the x64 signature requires. -/
def x64ExampleBuf : List Nat :=
  [0x48, 0x8D, 0x0D, 0x8F, 0xDA, 0x26, 0x00, 0xEB, 0x0D, 0x48, 0x8B, 0x89,
   0x30, 0x02, 0x00, 0x00, 0x66, 0x0F, 0x1F, 0x44, 0x00, 0x00]

/-- The same idiom with displacement bytes FF FF FF FF, the 32-bit encoding of
the signed displacement -1. -/
def x64NegDispBuf : List Nat :=
  [0x48, 0x8D, 0x0D, 0xFF, 0xFF, 0xFF, 0xFF, 0xEB, 0x0D, 0x48, 0x8B, 0x89,
   0x30, 0x02, 0x00, 0x00, 0x66, 0x0F, 0x1F, 0x44, 0x00, 0x00]

/-- Two-complement reinterpretation of a uint32 value as an int32. -/
def int32ofUint32 (x : Nat) : Int :=
  if x < 2147483648 then (x : Int) else (x : Int) - 4294967296

/-- Modelled from the claim wording for the 64-bit resolver: the 32-bit
little-endian displacement is read as a SIGNED value, sign-extended to 64
bits, and displacement + (m + moduleDataPtrOffsetLoc) + sectionBase is reduced
modulo 2 power 64. The code instead zero-extends; this definition exists to be
compared against the code. -/
def specResolveX64Signed (data : List Nat) (m sectionBase : Nat) : Nat :=
  uint64ofInt (int32ofUint32 (leUint32 data (m + 3)) + ((m : Int) + 7) + (sectionBase : Int))

/-- C1 counterexample: on the buffer whose displacement bytes are FF FF FF FF
(signed value -1) the code returns the zero-extended sum 0x100000006, while
the sign-extending formula of the claim yields 6; the two disagree. -/
theorem x64_resolver_not_signed :
    findModuleInitPCHeader x64NegDispBuf 0 = [⟨4294967302⟩]
    ∧ specResolveX64Signed x64NegDispBuf 0 0 = 6
    ∧ (4294967302 : Nat) ≠ 6 :=
  ⟨by decide, by decide, by decide⟩

/-- C1 amended: the 64-bit resolver reads the 32-bit little-endian
displacement as an UNSIGNED value (zero-extended to 64 bits), and the resolved
value is displacement + (m + 7) + sectionBase modulo 2 power 64; on the worked
example buffer with displacement 0x0026DA8F and sectionBase 0x00400000 the
result is 0x0026DA8F + 7 + 0x00400000. -/
theorem x64_resolver_amended (data : List Nat) (sectionBase : Nat) :
    x64Scan data sectionBase = (matchOffsets data x64sig.signature).flatMap (fun m =>
      [⟨(leUint32 data (m + 3) + (m + 7) + sectionBase) % 18446744073709551616⟩])
    ∧ findModuleInitPCHeader x64ExampleBuf 0x00400000 = [⟨0x0026DA8F + 7 + 0x00400000⟩] :=
  ⟨findPattern_eq data x64sig.signature _, by decide⟩

/-- x86 idiom: first-stage match at offset 0, loop signature exactly at
relative offset 50 — the exclusive bound rejects it. -/
def x86LoopFar : List Nat :=
  [0x8D, 0x02, 0x03, 0x04, 0x05, 0x06, 0xEB, 0x1A] ++ List.replicate 42 0 ++
    [0x8B, 0, 0, 0, 0, 0, 0x8B, 0, 0x24, 0x20, 0x85, 0, 0x75, 0xE2]

/-- x86 idiom: first-stage match at offset 0, loop signature at relative
offset 49 — one below the bound, accepted. -/
def x86LoopNear : List Nat :=
  [0x8D, 0x02, 0x03, 0x04, 0x05, 0x06, 0xEB, 0x1A] ++ List.replicate 41 0 ++
    [0x8B, 0, 0, 0, 0, 0, 0x8B, 0, 0x24, 0x20, 0x85, 0, 0x75, 0xE2]

/-- C2: the 32-bit resolver is the nested two-stage scan in which a
second-stage match at relative offset m2 contributes the raw 32-bit
little-endian pointer at m + 2 exactly when m2 < 50 (the bound is exclusive),
the result never involves sectionBase, and on concrete buffers a loop match at
distance exactly 50 is rejected while one at 49 is accepted and yields the raw
pointer 0x06050403 with no section base added. -/
theorem x86_resolver_two_stage (data : List Nat) (sectionBase sectionBase2 : Nat) :
    x86Scan data sectionBase =
      (matchOffsets data x86sig.moduleDataSignature).flatMap (fun m =>
        (matchOffsets (data.drop m) x86sig.loopSignature).flatMap (fun m2 =>
          if m2 < 50 then [⟨leUint32 data (m + 2)⟩] else []))
    ∧ x86Scan data sectionBase = x86Scan data sectionBase2
    ∧ x86Scan x86LoopFar sectionBase = []
    ∧ x86Scan x86LoopNear sectionBase = [⟨0x06050403⟩] := by
  refine ⟨?_, rfl, rfl, rfl⟩
  unfold x86Scan
  simp only [findPattern_eq]
  rfl


/-- The PPC example from the source comments: lis r4, 0x2c / addi r4, r4,
0x8000 and the rest of the idiom. -/
def ppcExampleBuf : List Nat :=
  [0x3C, 0x80, 0x00, 0x2C, 0x38, 0x84, 0x80, 0x00, 0x48, 0x00, 0x00, 0x08,
   0xE8, 0x84, 0x02, 0x30, 0x7C, 0x24, 0x00, 0x00, 0x41, 0x82, 0x01, 0xA8]

/-- For genuine uint16 values, the two-complement reinterpretation agrees with
the arithmetic sign-extension formula. -/
theorem int16ofUint16_eq_mod (x : Nat) (h : x < 65536) :
    int16ofUint16 x = ((x : Int) + 32768) % 65536 - 32768 := by
  unfold int16ofUint16
  by_cases hx : x < 32768
  · rw [if_pos hx]
    omega
  · rw [if_neg hx]
    omega

/-- C3: every match of the big-endian RISC scan resolves to
(hi shifted left 16) + lo computed in signed 64-bit arithmetic and
reinterpreted as unsigned, where hi is the big-endian uint16 at m + 2 and lo
is the big-endian 16-bit value at m + 6 reinterpreted as a signed int16, which
on uint16 values is exactly arithmetic sign extension; on the example buffer,
hi 0x002C with raw lo bits 0x8000 resolves to 0x2B8000. -/
theorem ppc_resolver_signed (data : List Nat) (sectionBase : Nat) :
    ppcScan data sectionBase =
      (matchOffsets data PPC_BE_sig.signature).flatMap (fun m =>
        [⟨uint64ofInt ((beUint16 data (m + 2) : Int) * 65536 +
            int16ofUint16 (beUint16 data (m + 6)))⟩])
    ∧ (∀ x : Nat, x < 65536 → int16ofUint16 x = ((x : Int) + 32768) % 65536 - 32768)
    ∧ ppcScan ppcExampleBuf sectionBase = [⟨0x2B8000⟩] :=
  ⟨findPattern_eq data PPC_BE_sig.signature _, int16ofUint16_eq_mod, rfl⟩

theorem ppc_resolver_signed_witness :
    int16ofUint16 0x8000 = ((0x8000 : Int) + 32768) % 65536 - 32768
    ∧ ppcScan ppcExampleBuf 0 = [⟨0x2B8000⟩] :=
  ⟨(ppc_resolver_signed ppcExampleBuf 0).2.1 0x8000 (by decide),
   (ppc_resolver_signed ppcExampleBuf 0).2.2⟩

/-- C7: findModuleInitPCHeader runs the x64, x86 and PPC scans over the same
data and sectionBase, in that fixed order, and returns exactly the
concatenation of the three outputs. -/
theorem match_collector_concat (data : List Nat) (sectionBase : Nat) :
    findModuleInitPCHeader data sectionBase =
      x64Scan data sectionBase ++ x86Scan data sectionBase ++ ppcScan data sectionBase := rfl

/-- Reading one fixed (wildcard-free) pattern byte off a successful byte
comparison. -/
theorem byte_of_fixed (data sig : List Nat) (i k c0 c1 : Nat)
    (h0 : sig.getD (k * 3) 0 = c0) (h1 : sig.getD (k * 3 + 1) 0 = c1)
    (hc0 : c0 ≠ 63) (hc1 : c1 ≠ 63)
    (h : sigByteMatches data sig i k = true) :
    data.getD (i + k) 0 = ((getBits c0 <<< 4) % 256).lor (getBits c1) := by
  unfold sigByteMatches at h
  rw [h0, h1, if_neg hc0, if_neg hc1, beq_iff_eq] at h
  exact h

/-- C8: the PPC signature fixes the very bytes its resolver reads (00 2C at
match offsets 2 and 3, 80 00 at offsets 6 and 7), so every match the PPC scan
produces resolves to the constant 0x2B8000. -/
theorem ppc_scan_constant (data : List Nat) (sectionBase : Nat) :
    ∀ x ∈ ppcScan data sectionBase, x.moduleDataVA = 0x2B8000 := by
  intro x hx
  unfold ppcScan at hx
  rw [findPattern_eq, List.mem_flatMap] at hx
  obtain ⟨m, hm, hxm⟩ := hx
  have hmatch := ((mem_matchOffsets data PPC_BE_sig.signature m).mp hm).2
  have h := (isMatchAt_iff data PPC_BE_sig.signature m).mp hmatch
  have hps : getPatternSize PPC_BE_sig.signature = 24 := by decide
  rw [hps] at h
  have e2 : data.getD (m + 2) 0 = 0 :=
    (byte_of_fixed data PPC_BE_sig.signature m 2 48 48 (by decide) (by decide)
      (by decide) (by decide) (h 2 (by omega)).2).trans (by decide)
  have e3 : data.getD (m + 3) 0 = 44 :=
    (byte_of_fixed data PPC_BE_sig.signature m 3 50 67 (by decide) (by decide)
      (by decide) (by decide) (h 3 (by omega)).2).trans (by decide)
  have e6 : data.getD (m + 6) 0 = 128 :=
    (byte_of_fixed data PPC_BE_sig.signature m 6 56 48 (by decide) (by decide)
      (by decide) (by decide) (h 6 (by omega)).2).trans (by decide)
  have e7 : data.getD (m + 7) 0 = 0 :=
    (byte_of_fixed data PPC_BE_sig.signature m 7 48 48 (by decide) (by decide)
      (by decide) (by decide) (h 7 (by omega)).2).trans (by decide)
  have hhi : beUint16 data (m + 2) = 44 := by
    unfold beUint16
    rw [show m + 2 + 1 = m + 3 from by omega, e2, e3]
  have hlo : beUint16 data (m + 6) = 32768 := by
    unfold beUint16
    rw [show m + 6 + 1 = m + 7 from by omega, e6, e7]
  have hval : x = ⟨uint64ofInt ((beUint16 data (m + 2) : Int) * 65536 +
      int16ofUint16 (beUint16 data (m + 6)))⟩ := by
    simpa using hxm
  rw [hval, hhi, hlo]
  decide

theorem ppc_scan_constant_witness :
    (⟨0x2B8000⟩ : SignatureMatch).moduleDataVA = 0x2B8000 :=
  ppc_scan_constant ppcExampleBuf 0 ⟨0x2B8000⟩ (by decide)

/-- C9: each static signature is long enough that the bytes its resolver reads
lie inside the matched pattern, and since the scanner reports matches only
where the whole pattern fits in the buffer, every resolver read in
findModuleInitPCHeader is in bounds. -/
theorem resolver_reads_in_bounds (data : List Nat) :
    (getPatternSize x64sig.signature = 22 ∧ getPatternSize x86sig.moduleDataSignature = 8
      ∧ getPatternSize PPC_BE_sig.signature = 24)
    ∧ (∀ m ∈ matchOffsets data x64sig.signature, m + 3 + 4 ≤ data.length)
    ∧ (∀ m ∈ matchOffsets data x86sig.moduleDataSignature, m + 2 + 4 ≤ data.length)
    ∧ (∀ m ∈ matchOffsets data PPC_BE_sig.signature,
        m + 2 + 2 ≤ data.length ∧ m + 6 + 2 ≤ data.length) := by
  refine ⟨⟨by decide, by decide, by decide⟩, ?_, ?_, ?_⟩
  · intro m hm
    have h := matchOffsets_bound data x64sig.signature m hm
    have hp : getPatternSize x64sig.signature = 22 := by decide
    omega
  · intro m hm
    have h := matchOffsets_bound data x86sig.moduleDataSignature m hm
    have hp : getPatternSize x86sig.moduleDataSignature = 8 := by decide
    omega
  · intro m hm
    have h := matchOffsets_bound data PPC_BE_sig.signature m hm
    have hp : getPatternSize PPC_BE_sig.signature = 24 := by decide
    omega

theorem resolver_reads_in_bounds_witness :
    0 + 3 + 4 ≤ x64ExampleBuf.length ∧ 0 + 2 + 4 ≤ x86LoopNear.length
    ∧ (0 + 2 + 2 ≤ ppcExampleBuf.length ∧ 0 + 6 + 2 ≤ ppcExampleBuf.length) :=
  ⟨(resolver_reads_in_bounds x64ExampleBuf).2.1 0 (by decide),
   (resolver_reads_in_bounds x86LoopNear).2.2.1 0 (by decide),
   (resolver_reads_in_bounds ppcExampleBuf).2.2.2 0 (by decide)⟩

/-- ASCII hex letters, in either case. -/
def isHexLetter (c : Nat) : Bool :=
  decide ((65 ≤ c ∧ c ≤ 70) ∨ (97 ≤ c ∧ c ≤ 102))

/-- Two pattern characters are case-equivalent when they are equal, or both
are hex letters that agree after the AND 0xDF case fold getBits performs. -/
def caseEquiv (c c2 : Nat) : Prop :=
  c = c2 ∨ (isHexLetter c = true ∧ isHexLetter c2 = true ∧ c.land 223 = c2.land 223)

/-- Case-equivalent characters decode to the same nibble and agree on being
the wildcard. -/
theorem caseEquiv_getBits (c c2 : Nat) (h : caseEquiv c c2) :
    getBits c = getBits c2 ∧ (c = 63 ↔ c2 = 63) := by
  rcases h with rfl | ⟨h1, h2, h3⟩
  · exact ⟨rfl, Iff.rfl⟩
  · simp only [isHexLetter, decide_eq_true_iff] at h1 h2
    constructor
    · unfold getBits
      rw [if_neg (by omega), if_neg (by omega), h3]
    · omega

/-- The byte comparison depends on the pattern characters only through their
nibble decoding and their being the wildcard. -/
theorem sigByteMatches_congr (data sig sig2 : List Nat) (i k : Nat)
    (h0 : caseEquiv (sig.getD (k * 3) 0) (sig2.getD (k * 3) 0))
    (h1 : caseEquiv (sig.getD (k * 3 + 1) 0) (sig2.getD (k * 3 + 1) 0)) :
    sigByteMatches data sig i k = sigByteMatches data sig2 i k := by
  obtain ⟨hg0, hw0⟩ := caseEquiv_getBits _ _ h0
  obtain ⟨hg1, hw1⟩ := caseEquiv_getBits _ _ h1
  unfold sigByteMatches
  have e0 : (if sig.getD (k * 3) 0 = 63 then (data.getD (i + k) 0).land 240
      else (getBits (sig.getD (k * 3) 0) <<< 4) % 256) =
      (if sig2.getD (k * 3) 0 = 63 then (data.getD (i + k) 0).land 240
      else (getBits (sig2.getD (k * 3) 0) <<< 4) % 256) := by
    by_cases hc : sig.getD (k * 3) 0 = 63
    · rw [if_pos hc, if_pos (hw0.mp hc)]
    · rw [if_neg hc, if_neg (fun hcc => hc (hw0.mpr hcc)), hg0]
  have e1 : (if sig.getD (k * 3 + 1) 0 = 63 then (data.getD (i + k) 0).land 15
      else getBits (sig.getD (k * 3 + 1) 0)) =
      (if sig2.getD (k * 3 + 1) 0 = 63 then (data.getD (i + k) 0).land 15
      else getBits (sig2.getD (k * 3 + 1) 0)) := by
    by_cases hc : sig.getD (k * 3 + 1) 0 = 63
    · rw [if_pos hc, if_pos (hw1.mp hc)]
    · rw [if_neg hc, if_neg (fun hcc => hc (hw1.mpr hcc)), hg1]
  rw [e0, e1]

/-- The inner loop is invariant under pointwise byte-comparison agreement. -/
theorem matchLoop_congr (data sig sig2 : List Nat) (i : Nat)
    (h : ∀ k, sigByteMatches data sig i k = sigByteMatches data sig2 i k) :
    ∀ fuel s, matchLoop data sig i s fuel = matchLoop data sig2 i s fuel := by
  intro fuel
  induction fuel with
  | zero =>
    intro s
    simp [matchLoop]
  | succ f ih =>
    intro s
    simp only [matchLoop]
    by_cases hd : i + s < data.length
    · rw [if_pos hd, if_pos hd, h s]
      by_cases hm : sigByteMatches data sig2 i s = true
      · rw [if_pos hm, if_pos hm]
        exact ih (s + 1)
      · rw [if_neg hm, if_neg hm]
    · rw [if_neg hd, if_neg hd]

/-- C10: getBits case-folds with AND 0xDF, so replacing hex letters of a
pattern by their opposite-case equivalents leaves findPattern unchanged on
every buffer and callback. -/
theorem pattern_case_insensitive (data sig sig2 : List Nat) (cb : Nat → List SignatureMatch)
    (hlen : sig2.length = sig.length)
    (hrel : ∀ j, caseEquiv (sig.getD j 0) (sig2.getD j 0)) :
    findPattern data sig cb = findPattern data sig2 cb := by
  have hps : getPatternSize sig2 = getPatternSize sig := by
    unfold getPatternSize
    rw [hlen]
  have hmatch : ∀ i, isMatchAt data sig i = isMatchAt data sig2 i := by
    intro i
    unfold isMatchAt
    rw [hps, matchLoop_congr data sig sig2 i
      (fun k => sigByteMatches_congr data sig sig2 i k (hrel _) (hrel _))]
  unfold findPattern
  simp only [hmatch]

theorem pattern_case_insensitive_witness :
    findPattern [171] (strBytes ("aB")) (fun k => [⟨k⟩]) =
      findPattern [171] (strBytes ("Ab")) (fun k => [⟨k⟩]) := by
  refine pattern_case_insensitive [171] (strBytes ("aB")) (strBytes ("Ab"))
    (fun k => [⟨k⟩]) (by decide) ?_
  intro j
  match j with
  | 0 => exact Or.inr ⟨by decide, by decide, by decide⟩
  | 1 => exact Or.inr ⟨by decide, by decide, by decide⟩
  | (j + 2) =>
    left
    have hl1 : (strBytes ("aB")).length = 2 := by decide
    have hl2 : (strBytes ("Ab")).length = 2 := by decide
    rw [List.getD_eq_default _ _ (by omega), List.getD_eq_default _ _ (by omega)]
